import Mathlib

/-!
Shallow embedding of the `fat-macho-rs` core (files `src/read.rs` and `src/write.rs`)
together with the external collaborators that the core consumes (the goblin
architecture-name table, `parse_magic_and_ctx`, `MultiArch` and `find_cputype`),
and proofs about the container assembly / disassembly logic.

Machine integers are modelled as `Nat` with explicit `% 2 ^ 32` truncation where the
Rust code performs an `as u32` cast.  Byte buffers are `List Nat` (each element a
byte value).  Fallible operations return `Except Error _` or `Option _`; the one
place where the Rust code can abort the process (the `i64` division by zero in
`FatWriter::write_to` when the running maximum alignment is `0`) is modelled by
`Option.none`.
-/

set_option maxHeartbeats 1000000
set_option maxRecDepth 100000

/-- The 32-bit fat magic `0xCAFEBABE` (goblin `mach::fat::FAT_MAGIC`). -/
def FAT_MAGIC : Nat := 0xCAFEBABE

/-- The 64-bit fat magic, the 32-bit magic plus one (src/write.rs:28 `FAT_MAGIC_64`). -/
def FAT_MAGIC_64 : Nat := FAT_MAGIC + 1

/-- Mach-O primary CPU type: 32-bit ARM. -/
def CPU_TYPE_ARM : Nat := 12

/-- Mach-O primary CPU type: 64-bit ARM (`CPU_TYPE_ARM | CPU_ARCH_ABI64`). -/
def CPU_TYPE_ARM64 : Nat := 0x0100000C

/-- Mach-O primary CPU type: ARM64_32 (`CPU_TYPE_ARM | CPU_ARCH_ABI64_32`). -/
def CPU_TYPE_ARM64_32 : Nat := 0x0200000C

/-- Mach-O primary CPU type: x86-64. -/
def CPU_TYPE_X86_64 : Nat := 0x01000007

/-- Mach-O primary CPU type: i386. -/
def CPU_TYPE_I386 : Nat := 7

/-- Mach-O primary CPU type: PowerPC. -/
def CPU_TYPE_POWERPC : Nat := 18

/-- Mach-O primary CPU type: PowerPC 64. -/
def CPU_TYPE_POWERPC64 : Nat := 0x01000012

/-- Mach-O primary CPU type: Motorola 68k. -/
def CPU_TYPE_MC680X0 : Nat := 6

/-- Mach-O primary CPU type: Motorola 88k. -/
def CPU_TYPE_MC88000 : Nat := 13

/-- Mach-O primary CPU type: SPARC. -/
def CPU_TYPE_SPARC : Nat := 14

/-- Mach-O primary CPU type: Intel i860. -/
def CPU_TYPE_I860 : Nat := 15

/-- Mach-O primary CPU type: HP PA-RISC. -/
def CPU_TYPE_HPPA : Nat := 11

/-- Modelled from the spec: the external architecture name ↔ identifier lookup table
(spec §1 and §3 delegate it to the object-parsing library; the core only consumes it).
Each entry maps a human-readable architecture name to its
(primary type, sub-type) identifier pair, using the standard Mach-O constants for the
architectures the spec names in §4.2.  The table contains only exact pairs: a pair
whose sub-type is not listed does not resolve to a name. -/
def archFlagTable : List (String × Nat × Nat) :=
  [("x86_64", (CPU_TYPE_X86_64, 3)),
   ("x86_64h", (CPU_TYPE_X86_64, 8)),
   ("i386", (CPU_TYPE_I386, 3)),
   ("arm64", (CPU_TYPE_ARM64, 0)),
   ("armv7", (CPU_TYPE_ARM, 9)),
   ("arm64_32", (CPU_TYPE_ARM64_32, 1)),
   ("ppc", (CPU_TYPE_POWERPC, 0)),
   ("ppc64", (CPU_TYPE_POWERPC64, 0)),
   ("m68k", (CPU_TYPE_MC680X0, 1)),
   ("m88k", (CPU_TYPE_MC88000, 0)),
   ("sparc", (CPU_TYPE_SPARC, 0)),
   ("i860", (CPU_TYPE_I860, 0)),
   ("hppa", (CPU_TYPE_HPPA, 0))]

/-- Modelled from the spec: resolve a human-readable architecture name to its
identifier pair (goblin `get_arch_from_flag`); `none` when the name is not known. -/
def get_arch_from_flag (name : String) : Option (Nat × Nat) :=
  (archFlagTable.find? (fun e => e.1 == name)).map (fun e => e.2)

/-- Modelled from the spec: resolve an identifier pair to its best-effort
human-readable name (goblin `get_arch_name_from_types`); `none` when the exact
(primary type, sub-type) pair is not in the table. -/
def get_arch_name_from_types (cputype cpusubtype : Nat) : Option String :=
  (archFlagTable.find? (fun e => e.2.1 == cputype && e.2.2 == cpusubtype)).map (fun e => e.1)

/-- Modelled from the spec: the error kinds of spec §7 (`crate::error::Error` lives in
the repository outside `src/`).  `Goblin` stands for a parse error propagated unchanged
from the external object-parsing library. -/
inductive Error where
  | NotFatBinary : Error
  | DuplicatedArch : String → Error
  | InvalidMachO : String → Error
  | Goblin : Error
  | Io : Error
deriving DecidableEq, Repr

/-- The part of a goblin Mach-O `Header` that `FatWriter` reads: the identifier pair.
Both fields are `u32` values in the Rust code. -/
structure Header where
  cputype : Nat
  cpusubtype : Nat
deriving DecidableEq, Repr

/-- Embeds `ThinArch` (src/write.rs:30-35): one accumulated single-architecture image.
The Rust `align` field is an `i64` that only ever holds `0`, `0x1000`, `0x2000` or
`0x4000`, so it is modelled as `Nat`. -/
structure ThinArch where
  data : List Nat
  header : Header
  align : Nat
deriving DecidableEq, Repr

/-- Embeds `FatWriter` (src/write.rs:38-42): the builder state. -/
structure FatWriter where
  arches : List ThinArch
  maxAlign : Nat
deriving DecidableEq, Repr

/-- Embeds `FatWriter::new` (src/write.rs:46-51). -/
def FatWriter.new : FatWriter := ⟨[], 0⟩

/-- Embeds `get_align_from_cpu_types` (src/write.rs:223-240): resolve the pair to a
name, resolve the name back to a pair, and classify the resulting primary type; every
fall-through path yields `0`. -/
def get_align_from_cpu_types (cpu_type cpu_subtype : Nat) : Nat :=
  match get_arch_name_from_types cpu_type cpu_subtype with
  | some arch_name =>
    match get_arch_from_flag arch_name with
    | some (t, _) =>
      if t = CPU_TYPE_ARM ∨ t = CPU_TYPE_ARM64 ∨ t = CPU_TYPE_ARM64_32 then 0x4000
      else if t = CPU_TYPE_X86_64 ∨ t = CPU_TYPE_I386 ∨ t = CPU_TYPE_POWERPC ∨
          t = CPU_TYPE_POWERPC64 then 0x1000
      else if t = CPU_TYPE_MC680X0 ∨ t = CPU_TYPE_MC88000 ∨ t = CPU_TYPE_SPARC ∨
          t = CPU_TYPE_I860 ∨ t = CPU_TYPE_HPPA then 0x2000
      else 0
    | none => 0
  | none => 0

/-- Embeds the comparator of `FatWriter::add`'s sort (src/write.rs:96-109): equal
primary types compare by sub-type; otherwise an ARM64 entry is pushed after everything
else; otherwise entries compare by required alignment. -/
def cmpArches (a b : ThinArch) : Ordering :=
  if a.header.cputype = b.header.cputype then compare a.header.cpusubtype b.header.cpusubtype
  else if a.header.cputype = CPU_TYPE_ARM64 then Ordering.gt
  else if b.header.cputype = CPU_TYPE_ARM64 then Ordering.lt
  else compare a.align b.align

/-- The non-strict relation induced by `cmpArches`, used to express the sort. -/
def archLe (a b : ThinArch) : Prop := cmpArches a b ≠ Ordering.gt

instance : DecidableRel archLe := fun a b => by unfold archLe; infer_instance

/-- Models the `self.arches.sort_by(...)` call of `FatWriter::add` (src/write.rs:96).
`slice::sort_by` is specified as a stable sort, and every stable sort (in particular
insertion sort) produces the same output whenever the comparator is a total preorder,
so `List.insertionSort` with the non-strict relation of `cmpArches` is a faithful
model in that regime; when the comparator is not a total preorder Rust leaves the
resulting order unspecified, and this model fixes the insertion-sort outcome, which
is also what Rust's standard library computes on small slices. -/
def sortArches (l : List ThinArch) : List ThinArch := List.insertionSort archLe l

/-- Embeds the `Mach::Binary` arm of `FatWriter::add` (src/write.rs:64-111): the
duplicate check, the alignment computation, the running-maximum update, the push and
the re-sort.  The classification of the raw bytes (goblin `Object::parse`) is the
external collaborator, so the parsed header is taken as an argument. -/
def FatWriter.addThin (w : FatWriter) (h : Header) (bytes : List Nat) :
    Except Error FatWriter :=
  if (w.arches.find? (fun a =>
      a.header.cputype == h.cputype && a.header.cpusubtype == h.cpusubtype)).isSome then
    Except.error (Error.DuplicatedArch
      ((get_arch_name_from_types h.cputype h.cpusubtype).getD "unknown"))
  else
    let align := get_align_from_cpu_types h.cputype h.cpusubtype
    let newMax := if w.maxAlign < align then align else w.maxAlign
    Except.ok ⟨sortArches (w.arches ++ [⟨bytes, h, align⟩]), newMax⟩

/-- The state transition of one `add` call: the new state on success, the old state
unchanged when `add` returns an error (the Rust `add` returns `Err` before mutating). -/
def FatWriter.applyAdd (w : FatWriter) (h : Header) (bytes : List Nat) : FatWriter :=
  match w.addThin h bytes with
  | Except.ok w2 => w2
  | Except.error _ => w

/-- Embeds `FatWriter::remove` (src/write.rs:114-123): resolve the name, remove the
first entry with the matching identifier pair and return its payload. -/
def FatWriter.removeArch (w : FatWriter) (name : String) : FatWriter × Option (List Nat) :=
  match get_arch_from_flag name with
  | some (t, s) =>
    match w.arches.findIdx? (fun a =>
        a.header.cputype == t && a.header.cpusubtype == s) with
    | some i => (⟨w.arches.eraseIdx i, w.maxAlign⟩, (w.arches.get? i).map ThinArch.data)
    | none => (w, none)
  | none => (w, none)

/-- The builder states reachable from `FatWriter::new` through `add` and `remove`. -/
inductive Reachable : FatWriter → Prop where
  | new : Reachable FatWriter.new
  | add (h : Header) (bytes : List Nat) {w : FatWriter} :
      Reachable w → Reachable (w.applyAdd h bytes)
  | remove (name : String) {w : FatWriter} :
      Reachable w → Reachable (w.removeArch name).1

/-- Embeds the round-up `(total_offset + align - 1) / align * align`
(src/write.rs:150); all quantities are non-negative in the Rust code, so truncating
`i64` division agrees with `Nat` division. -/
def roundUp (t a : Nat) : Nat := (t + a - 1) / a * a

/-- Embeds the offset loop of `FatWriter::write_to` (src/write.rs:145-151): each entry
records the running offset, which then advances by the entry length and is rounded up
to the alignment. -/
def archOffsetsAux (align : Nat) : Nat → List ThinArch → List Nat
  | _, [] => []
  | total, a :: rest =>
    total :: archOffsetsAux align (roundUp (total + a.data.length) align) rest

/-- The per-entry offsets computed by `FatWriter::write_to`, starting at `align`. -/
def archOffsets (l : List ThinArch) (align : Nat) : List Nat := archOffsetsAux align align l

/-- The final value of `total_offset` after the offset loop of `FatWriter::write_to`. -/
def totalOffset (align : Nat) : Nat → List ThinArch → Nat
  | total, [] => total
  | total, a :: rest => totalOffset align (roundUp (total + a.data.length) align) rest

/-- Embeds the fat32/fat64 decision of `FatWriter::write_to` (src/write.rs:153-159):
64-bit iff the final `total_offset` or the length of the last entry reaches `2^32`. -/
def isFat64 (l : List ThinArch) (align : Nat) : Bool :=
  decide (2 ^ 32 ≤ totalOffset align align l) ||
    (match l.getLast? with
     | some a => decide (2 ^ 32 ≤ a.data.length)
     | none => false)

/-- Models `(align as f32).log2() as u32` (src/write.rs:169).  For every value the
`align` variable can take (`0x1000`, `0x2000`, `0x4000`, exactly representable powers
of two) the `f32` logarithm is exact, and for `align = 0` the cast of `-inf` saturates
to `0`; in both regimes the result coincides with `Nat.log2`. -/
def alignBits (align : Nat) : Nat := Nat.log2 align

/-- Embeds the per-entry descriptor words pushed by `FatWriter::write_to`
(src/write.rs:171-188), in push order: cputype, cpusubtype, offset (preceded by its
high word in the 64-bit form), size (same split), the alignment exponent, and the
reserved zero word of the 64-bit form.  The `as u32` casts are `% 2 ^ 32`. -/
def archWords (f64 : Bool) (ab : Nat) (a : ThinArch) (off : Nat) : List Nat :=
  [a.header.cputype, a.header.cpusubtype] ++
    (if f64 then [off / 2 ^ 32 % 2 ^ 32] else []) ++ [off % 2 ^ 32] ++
    (if f64 then [a.data.length / 2 ^ 32 % 2 ^ 32] else []) ++
    [a.data.length % 2 ^ 32, ab] ++ (if f64 then [0] else [])

/-- The full `hdr` vector of `u32` words built by `FatWriter::write_to`
(src/write.rs:160-188): magic, entry count, then one descriptor per entry. -/
def hdrWords (l : List ThinArch) (align : Nat) : List Nat :=
  (if isFat64 l align then FAT_MAGIC_64 else FAT_MAGIC) :: l.length % 2 ^ 32 ::
    ((l.zip (archOffsets l align)).map
      (fun p => archWords (isFat64 l align) (alignBits align) p.1 p.2)).flatten

/-- Big-endian byte serialization of one `u32` word (`u32::to_be_bytes`,
src/write.rs:193). -/
def be32 (w : Nat) : List Nat := [w / 2 ^ 24 % 256, w / 2 ^ 16 % 256, w / 2 ^ 8 % 256, w % 256]

/-- The header region of the output stream: every word of `hdr` in big-endian bytes. -/
def headerBytes (l : List ThinArch) (align : Nat) : List Nat :=
  ((hdrWords l align).map be32).flatten

/-- Embeds the payload loop of `FatWriter::write_to` (src/write.rs:197-204): for each
entry, zero padding is emitted only when the running cursor is strictly below the
entry's computed offset, then the raw payload follows and the cursor advances. -/
def payloadBytesAux : Nat → List (ThinArch × Nat) → List Nat
  | _, [] => []
  | cursor, (a, off) :: rest =>
    (if cursor < off then List.replicate (off - cursor) 0 else []) ++ a.data ++
      payloadBytesAux ((if cursor < off then off else cursor) + a.data.length) rest

/-- Embeds `FatWriter::write_to` (src/write.rs:140-206) writing into an in-memory
byte vector.  The empty builder writes nothing and succeeds.  When the running maximum
alignment is `0` and the builder is non-empty, the Rust code divides by zero on the
first round-up (`(total_offset + align - 1) / align`, src/write.rs:150) and aborts the
process; that panic is modelled as `none`.  Otherwise the output is the big-endian
header followed by the padded payload region, with the write cursor starting at the
header length `4 * hdr.len()` (src/write.rs:195). -/
def FatWriter.writeToBytes (w : FatWriter) : Option (List Nat) :=
  if w.arches = [] then some []
  else if w.maxAlign = 0 then none
  else some (headerBytes w.arches w.maxAlign ++
    payloadBytesAux (4 * (hdrWords w.arches w.maxAlign).length)
      (w.arches.zip (archOffsets w.arches w.maxAlign)))

/-- One byte of a buffer (out-of-range reads never happen on the paths we model with
this accessor; the bounds are checked before it is used). -/
def byteAt (buf : List Nat) (i : Nat) : Nat := buf.getD i 0

/-- A big-endian `u32` read at a byte offset (scroll `pread_with::<u32>(o, BE)`). -/
def be32At (buf : List Nat) (i : Nat) : Nat :=
  byteAt buf i * 2 ^ 24 + byteAt buf (i + 1) * 2 ^ 16 + byteAt buf (i + 2) * 2 ^ 8 +
    byteAt buf (i + 3)

/-- Modelled from the spec: goblin `parse_magic_and_ctx` reads the big-endian `u32`
at offset 0 and fails with a propagated parse error when the buffer holds fewer than
4 bytes; an unrecognized magic value is not an error at this stage. -/
def parseMagicAndCtx (buf : List Nat) : Except Error Nat :=
  if 4 ≤ buf.length then Except.ok (be32At buf 0) else Except.error Error.Goblin

/-- One descriptor of the fat architecture table (goblin `fat::FatArch`, the
32-bit wire form: five big-endian `u32` fields). -/
structure FatArch where
  cputype : Nat
  cpusubtype : Nat
  offset : Nat
  size : Nat
  alignExp : Nat
deriving DecidableEq, Repr

/-- Modelled from the spec: parsing one 20-byte `FatArch` descriptor at byte offset
`o`; fails with a propagated parse error when the buffer is too short. -/
def parseFatArch (buf : List Nat) (o : Nat) : Except Error FatArch :=
  if o + 20 ≤ buf.length then
    Except.ok ⟨be32At buf o, be32At buf (o + 4), be32At buf (o + 8), be32At buf (o + 12),
      be32At buf (o + 16)⟩
  else Except.error Error.Goblin

/-- Modelled from the spec: goblin `MultiArch` as stored by `MultiArch::new` — the
buffer and the declared architecture count; the descriptor table itself is parsed
lazily, on iteration. -/
structure MultiArch where
  buffer : List Nat
  narches : Nat
deriving DecidableEq, Repr

/-- Modelled from the spec: goblin `MultiArch::new` parses only the 8-byte fat header
(magic and count, both big-endian) and fails with a propagated parse error when the
buffer holds fewer than 8 bytes; the architecture table is not validated here. -/
def multiArchNew (buf : List Nat) : Except Error MultiArch :=
  if 8 ≤ buf.length then Except.ok ⟨buf, be32At buf 4⟩ else Except.error Error.Goblin

/-- Embeds `FatReader` (src/read.rs:7-10). -/
structure FatReader where
  buffer : List Nat
  fat : MultiArch
deriving DecidableEq, Repr

/-- Embeds `FatReader::new` (src/read.rs:14-27): read the magic (propagating the parse
error of a too-short buffer through `?`), reject any magic other than the two fat
magics with `NotFatBinary`, then build the `MultiArch`, turning its failure into
`NotFatBinary`. -/
def fatReaderNew (buf : List Nat) : Except Error FatReader :=
  match parseMagicAndCtx buf with
  | Except.error e => Except.error e
  | Except.ok magic =>
    if magic ≠ FAT_MAGIC ∧ magic ≠ FAT_MAGIC_64 then Except.error Error.NotFatBinary
    else
      match multiArchNew buf with
      | Except.ok fat => Except.ok ⟨buf, fat⟩
      | Except.error _ => Except.error Error.NotFatBinary

/-- Modelled from the spec: the scan of goblin `find_cputype`, walking descriptor
slots `i, i+1, ...` (with `fuel` slots left out of `narches`), propagating the first
descriptor parse error and returning the first descriptor whose primary type matches.
The sub-type plays no role. -/
def findFromIdx (buf : List Nat) (t : Nat) : Nat → Nat → Except Error (Option FatArch)
  | _, 0 => Except.ok none
  | i, fuel + 1 =>
    match parseFatArch buf (8 + 20 * i) with
    | Except.error e => Except.error e
    | Except.ok a =>
      if a.cputype = t then Except.ok (some a) else findFromIdx buf t (i + 1) fuel

/-- Modelled from the spec: goblin `MultiArch::find_cputype`. -/
def MultiArch.findCputype (m : MultiArch) (t : Nat) : Except Error (Option FatArch) :=
  findFromIdx m.buffer t 0 m.narches

/-- Embeds `FatReader::extract` (src/read.rs:30-39): resolve the name (discarding the
resolved sub-type, as the `_cpu_subtype` binding does), call `find_cputype` with the
primary type only, collapse a table parse error to `None` (`unwrap_or_default`), and
slice `[offset, offset+size)` out of the original buffer. -/
def FatReader.extract (r : FatReader) (name : String) : Option (List Nat) :=
  match get_arch_from_flag name with
  | none => none
  | some (t, _) =>
    match r.fat.findCputype t with
    | Except.ok (some a) => some ((r.buffer.drop a.offset).take a.size)
    | _ => none

/-- Builds the `ThinArch` that `FatWriter::add` pushes for a parsed thin image. -/
def mkThin (h : Header) (d : List Nat) : ThinArch :=
  ⟨d, h, get_align_from_cpu_types h.cputype h.cpusubtype⟩

/-- A whole sequence of `add` calls, each leaving the state unchanged on failure. -/
def addAll (w : FatWriter) (l : List (Header × List Nat)) : FatWriter :=
  l.foldl (fun w p => w.applyAdd p.1 p.2) w

/-- The sort key that agrees with `cmpArches` on entries with distinct primary types:
ARM64 entries sort after everything else, the rest by required alignment. -/
def archKey (a : ThinArch) : Nat × Nat :=
  (if a.header.cputype = CPU_TYPE_ARM64 then 1 else 0, a.align)

/-- The total preorder induced by `archKey` (lexicographic). -/
def archKeyLe (a b : ThinArch) : Prop :=
  (archKey a).1 < (archKey b).1 ∨ ((archKey a).1 = (archKey b).1 ∧ (archKey a).2 ≤ (archKey b).2)

instance : DecidableRel archKeyLe := fun a b => by unfold archKeyLe; infer_instance

/-- Stable insertion of a new greatest-position element: `y` is placed before the
first element strictly greater than it, hence after every element equivalent to it —
exactly where a stable sort puts an element appended at the end of the list. -/
def insertLast {α : Type} (r : α → α → Prop) [DecidableRel r] (y : α) : List α → List α
  | [] => [y]
  | e :: es => if r y e ∧ ¬ r e y then y :: e :: es else e :: insertLast r y es

/-- The builder state of one `add` of an image with unrecognized architecture
(primary type `0x77` is in no alignment class, so the running maximum alignment
stays `0`). -/
def c3State : FatWriter := FatWriter.new.applyAdd ⟨0x77, 0⟩ [9, 9, 9, 9]

/-- The builder state after one successful `add` of an x86-64 image. -/
def w1 : FatWriter := FatWriter.new.applyAdd ⟨CPU_TYPE_X86_64, 3⟩ [1, 2, 3, 4]

/-- A 32-byte fat container: 32-bit magic, one descriptor whose identifier pair is
(x86-64, sub-type 9) — resolving "x86_64" yields sub-type 3, so no descriptor matches
the full pair — with payload `[0xAA, 0xBB, 0xCC, 0xDD]` at offset 28, size 4. -/
def c2Buffer : List Nat :=
  [0xCA, 0xFE, 0xBA, 0xBE, 0, 0, 0, 1,
   0x01, 0x00, 0x00, 0x07, 0, 0, 0, 9, 0, 0, 0, 28, 0, 0, 0, 4, 0, 0, 0, 0,
   0xAA, 0xBB, 0xCC, 0xDD]

/-- Claim C2's property at one buffer: whenever a name resolves to an identifier pair
and `extract` returns a slice, some descriptor of the table matches the *whole* pair
(primary type and sub-type) and the slice is that descriptor's byte range. -/
def extractMatchesPair (buf : List Nat) : Prop :=
  ∀ rd name t s, fatReaderNew buf = Except.ok rd → get_arch_from_flag name = some (t, s) →
    ∀ out, rd.extract name = some out →
      ∃ i a, i < rd.fat.narches ∧ parseFatArch buf (8 + 20 * i) = Except.ok a ∧
        a.cputype = t ∧ a.cpusubtype = s ∧ out = (buf.drop a.offset).take a.size

/-- An 8-byte buffer that is exactly a fat header (32-bit magic, count 2) with a
completely missing architecture table. -/
def c6HdrOnly : List Nat := [0xCA, 0xFE, 0xBA, 0xBE, 0, 0, 0, 2]

/-- Mirrors the spec's §4.2 alignment-class policy literally by primary CPU type
(16 KiB embedded, 4 KiB desktop, 8 KiB legacy, else 0), for comparison with the
code's `get_align_from_cpu_types`. -/
def alignClassOfPrimary (t : Nat) : Nat :=
  if t = CPU_TYPE_ARM ∨ t = CPU_TYPE_ARM64 ∨ t = CPU_TYPE_ARM64_32 then 0x4000
  else if t = CPU_TYPE_X86_64 ∨ t = CPU_TYPE_I386 ∨ t = CPU_TYPE_POWERPC ∨
      t = CPU_TYPE_POWERPC64 then 0x1000
  else if t = CPU_TYPE_MC680X0 ∨ t = CPU_TYPE_MC88000 ∨ t = CPU_TYPE_SPARC ∨
      t = CPU_TYPE_I860 ∨ t = CPU_TYPE_HPPA then 0x2000
  else 0

/-- 205 thin i386-family entries with distinct sub-types `0..204` and 4-byte payloads;
the (i386, 3) entry resolves, so a builder holding them has running maximum alignment
`0x1000`, while its 32-bit header table occupies `4 * (2 + 5 * 205) = 4108` bytes —
more than the first computed offset `0x1000 = 4096`. -/
def c9Arches : List ThinArch :=
  (List.range 205).map
    (fun i => ⟨[1, 2, 3, 4], ⟨CPU_TYPE_I386, i⟩, get_align_from_cpu_types CPU_TYPE_I386 i⟩)

/-- The builder state holding `c9Arches`. -/
def c9State : FatWriter := ⟨c9Arches, 0x1000⟩

/-- Claim C9's property at one builder: every payload begins in the output stream
exactly at the offset computed (and declared in the header table) for it. -/
def PayloadsAtOffsets (w : FatWriter) : Prop :=
  ∀ bytes, w.writeToBytes = some bytes →
    ∀ i (hi : i < w.arches.length) (ho : i < (archOffsets w.arches w.maxAlign).length),
      (bytes.drop ((archOffsets w.arches w.maxAlign).get ⟨i, ho⟩)).take
          (w.arches.get ⟨i, hi⟩).data.length = (w.arches.get ⟨i, hi⟩).data

/-- The three-image add sequence of the C7 counterexample: three unrecognized
architectures (alignment 0 each), two sharing primary type `0x50` with descending
sub-types, one with primary type `0x60` in between. -/
def c7Imgs : List (Header × List Nat) :=
  [(⟨0x50, 8⟩, [1]), (⟨0x60, 1⟩, [2]), (⟨0x50, 3⟩, [3])]

/-- The builder after the first C7 add. -/
def c7w1 : FatWriter := FatWriter.new.applyAdd ⟨0x50, 8⟩ [1]

/-- The builder after the second C7 add. -/
def c7w2 : FatWriter := c7w1.applyAdd ⟨0x60, 1⟩ [2]

/-- The builder after the third C7 add. -/
def c7w3 : FatWriter := c7w2.applyAdd ⟨0x50, 3⟩ [3]

theorem le_roundUp (t a : Nat) (ha : 0 < a) : t ≤ roundUp t a := by
  unfold roundUp
  rcases Nat.eq_zero_or_pos t with h0 | h1
  · subst h0; exact Nat.zero_le _
  · have key : t + a - 1 = t - 1 + a := by omega
    rw [key, Nat.add_div_right _ ha, Nat.succ_mul, Nat.mul_comm ((t - 1) / a) a]
    have hdm := Nat.div_add_mod (t - 1) a
    have hm := Nat.mod_lt (t - 1) ha
    generalize (t - 1) / a = q at hdm
    generalize hrr : (t - 1) % a = r at hdm hm
    generalize a * q = m at hdm
    omega

theorem roundUp_dvd (t a : Nat) : a ∣ roundUp t a := by
  unfold roundUp
  exact dvd_mul_left a _

theorem le_totalOffset (a : Nat) (ha : 0 < a) :
    ∀ (l : List ThinArch) (t : Nat), t ≤ totalOffset a t l := by
  intro l
  induction l with
  | nil => intro t; exact Nat.le_refl t
  | cons x xs ih =>
    intro t
    calc t ≤ t + x.data.length := Nat.le_add_right _ _
    _ ≤ roundUp (t + x.data.length) a := le_roundUp _ _ ha
    _ ≤ totalOffset a (roundUp (t + x.data.length) a) xs := ih _

theorem len_le_totalOffset (a : Nat) (ha : 0 < a) :
    ∀ (l : List ThinArch) (t : Nat) (x : ThinArch), x ∈ l → x.data.length ≤ totalOffset a t l := by
  intro l
  induction l with
  | nil => intro t x hx; cases hx
  | cons y ys ih =>
    intro t x hx
    rcases List.mem_cons.mp hx with h | h
    · subst h
      calc x.data.length ≤ t + x.data.length := Nat.le_add_left _ _
      _ ≤ roundUp (t + x.data.length) a := le_roundUp _ _ ha
      _ ≤ totalOffset a (roundUp (t + x.data.length) a) ys := le_totalOffset a ha ys _
    · exact ih _ x h

/-- Claim C3 (the code aborts where the spec forbids it): the builder reached by one
`add` of an image with unrecognized architecture has running maximum alignment 0 and a
non-empty entry list, and `write_to` on it takes the division-by-zero path of the
offset round-up (src/write.rs:150), aborting the process instead of returning a typed
error. -/
theorem writeTo_zero_align_div_by_zero :
    Reachable c3State ∧ c3State.arches ≠ [] ∧ c3State.maxAlign = 0 ∧
      c3State.writeToBytes = none :=
  ⟨Reachable.add ⟨0x77, 0⟩ [9, 9, 9, 9] Reachable.new, by decide, by decide, by decide⟩

/-- Claim C5: adding an image whose header carries an identifier pair already present
fails with `DuplicatedArch` of the best-effort name (or "unknown"), and the failed
call leaves the builder — in particular its entry list and entry count — unchanged. -/
theorem add_duplicate_rejected (w : FatWriter) (h : Header) (bytes : List Nat)
    (a : ThinArch) (ha : a ∈ w.arches) (ht : a.header.cputype = h.cputype)
    (hs : a.header.cpusubtype = h.cpusubtype) :
    w.addThin h bytes = Except.error (Error.DuplicatedArch
      ((get_arch_name_from_types h.cputype h.cpusubtype).getD "unknown")) ∧
    w.applyAdd h bytes = w ∧ (w.applyAdd h bytes).arches.length = w.arches.length := by
  have hf : (w.arches.find? (fun a =>
      a.header.cputype == h.cputype && a.header.cpusubtype == h.cpusubtype)).isSome = true := by
    rw [List.find?_isSome]
    exact ⟨a, ha, by simp [ht, hs]⟩
  have h1 : w.addThin h bytes = Except.error (Error.DuplicatedArch
      ((get_arch_name_from_types h.cputype h.cpusubtype).getD "unknown")) := by
    unfold FatWriter.addThin
    rw [if_pos hf]
  have h2 : w.applyAdd h bytes = w := by
    unfold FatWriter.applyAdd
    rw [h1]
  exact ⟨h1, h2, by rw [h2]⟩

/-- Witness for claim C5 at a concrete builder: a second x86-64 image is rejected with
the resolved name and the state survives untouched. -/
theorem add_duplicate_rejected_witness :
    w1.addThin ⟨CPU_TYPE_X86_64, 3⟩ [7, 7] = Except.error (Error.DuplicatedArch
      ((get_arch_name_from_types (Header.mk CPU_TYPE_X86_64 3).cputype
        (Header.mk CPU_TYPE_X86_64 3).cpusubtype).getD "unknown")) ∧
    w1.applyAdd ⟨CPU_TYPE_X86_64, 3⟩ [7, 7] = w1 ∧
    (w1.applyAdd ⟨CPU_TYPE_X86_64, 3⟩ [7, 7]).arches.length = w1.arches.length :=
  add_duplicate_rejected w1 ⟨CPU_TYPE_X86_64, 3⟩ [7, 7]
    ⟨[1, 2, 3, 4], ⟨CPU_TYPE_X86_64, 3⟩, 4096⟩ (by decide) rfl rfl

/-- Claim C8 counterexample: the required alignment is not determined by the primary
CPU type alone — the pair (x86-64, sub-type 99) does not resolve to a name, so the
code yields 0 for it, while (x86-64, sub-type 3) yields the 4 KiB the claim asserts
for every x86-64 pair. -/
theorem align_subtype_dependent_cex :
    get_align_from_cpu_types CPU_TYPE_X86_64 99 = 0 ∧
    get_align_from_cpu_types CPU_TYPE_X86_64 99 ≠ 0x1000 ∧
    get_align_from_cpu_types CPU_TYPE_X86_64 3 = 0x1000 := by
  refine ⟨rfl, ?_, rfl⟩
  decide

theorem table_roundtrip : ∀ e ∈ archFlagTable, get_arch_from_flag e.1 = some e.2 := by
  decide

/-- Claim C8 as amended: the alignment computed at add time follows the §4.2
primary-type classes for every identifier pair that resolves to an architecture name,
and is 0 — even for a recognized primary type — whenever the exact pair is not in the
name table. -/
theorem align_class_amended (t s : Nat) :
    ((get_arch_name_from_types t s).isSome = true →
      get_align_from_cpu_types t s = alignClassOfPrimary t) ∧
    (get_arch_name_from_types t s = none → get_align_from_cpu_types t s = 0) := by
  constructor
  · intro hsome
    obtain ⟨name, hn⟩ := Option.isSome_iff_exists.mp hsome
    obtain ⟨e, hfind, hname⟩ := Option.map_eq_some'.mp hn
    have hmem := List.mem_of_find?_eq_some hfind
    have hpred := List.find?_some hfind
    have hpair : e.2.1 = t ∧ e.2.2 = s := by
      simp only [Bool.and_eq_true, beq_iff_eq] at hpred
      exact hpred
    have hflag : get_arch_from_flag name = some (t, e.2.2) := by
      have := table_roundtrip e hmem
      rw [hname] at this
      rw [this, ← hpair.1]
    unfold get_align_from_cpu_types
    rw [hn]
    dsimp only
    rw [hflag]
    rfl
  · intro hnone
    unfold get_align_from_cpu_types
    rw [hnone]

/-- Witness for the amended claim C8 at the concrete pair (x86-64, 3). -/
theorem align_class_amended_witness :
    get_align_from_cpu_types CPU_TYPE_X86_64 3 = alignClassOfPrimary CPU_TYPE_X86_64 :=
  (align_class_amended CPU_TYPE_X86_64 3).1 (by rfl)

/-- Claim C10: in every builder state reachable through `add` and `remove`, the stored
running maximum alignment dominates the required alignment of every entry present
(`add` raises it when needed and `remove` never lowers it). -/
theorem maxAlign_dominates (w : FatWriter) (hr : Reachable w) :
    ∀ a ∈ w.arches, a.align ≤ w.maxAlign := by
  induction hr with
  | new => intro a ha; cases ha
  | @add h bytes w _ ih =>
    cases hadd : w.addThin h bytes with
    | error e =>
      have heq : w.applyAdd h bytes = w := by unfold FatWriter.applyAdd; rw [hadd]
      rw [heq]; exact ih
    | ok w2 =>
      have heq : w.applyAdd h bytes = w2 := by unfold FatWriter.applyAdd; rw [hadd]
      rw [heq]
      unfold FatWriter.addThin at hadd
      by_cases hdup : (w.arches.find? (fun a =>
          a.header.cputype == h.cputype && a.header.cpusubtype == h.cpusubtype)).isSome = true
      · rw [if_pos hdup] at hadd; cases hadd
      · rw [if_neg hdup] at hadd
        injection hadd with hw2
        subst hw2
        intro a ha
        have ha2 : a ∈ w.arches ++
            [⟨bytes, h, get_align_from_cpu_types h.cputype h.cpusubtype⟩] :=
          (List.mem_insertionSort archLe).mp ha
        rcases List.mem_append.mp ha2 with hin | hin
        · have := ih a hin
          dsimp only
          split <;> omega
        · rcases List.mem_singleton.mp hin with rfl
          dsimp only
          split <;> omega
  | @remove name w _ ih =>
    cases hflag : get_arch_from_flag name with
    | none =>
      have heq : (w.removeArch name).1 = w := by unfold FatWriter.removeArch; rw [hflag]
      rw [heq]; exact ih
    | some p =>
      obtain ⟨t, s⟩ := p
      cases hidx : w.arches.findIdx? (fun a =>
          a.header.cputype == t && a.header.cpusubtype == s) with
      | none =>
        have heq : (w.removeArch name).1 = w := by
          unfold FatWriter.removeArch; rw [hflag]; dsimp only; rw [hidx]
        rw [heq]; exact ih
      | some i =>
        have heq : (w.removeArch name).1 = ⟨w.arches.eraseIdx i, w.maxAlign⟩ := by
          unfold FatWriter.removeArch; rw [hflag]; dsimp only; rw [hidx]
        rw [heq]
        intro a ha
        exact ih a (List.mem_of_mem_eraseIdx ha)

/-- Witness for claim C10 at a concrete reachable state: the single entry of `w1`
respects the running maximum alignment. -/
theorem maxAlign_dominates_witness :
    (ThinArch.mk [1, 2, 3, 4] ⟨CPU_TYPE_X86_64, 3⟩ 4096).align ≤ w1.maxAlign :=
  maxAlign_dominates w1 (Reachable.add ⟨CPU_TYPE_X86_64, 3⟩ [1, 2, 3, 4] Reachable.new)
    _ (by decide)

/-- Claim C2 counterexample: on `c2Buffer` the name "x86_64" resolves to the pair
(x86-64, 3), the container's only descriptor carries the pair (x86-64, 9), and
`extract` nevertheless returns that descriptor's byte range — the lookup matched on
primary type alone, so the claimed full-pair matching fails. -/
theorem extract_full_pair_cex : ¬ extractMatchesPair c2Buffer := by
  intro hcl
  have h := hcl ⟨c2Buffer, ⟨c2Buffer, 1⟩⟩ "x86_64" CPU_TYPE_X86_64 3 (by rfl) (by rfl)
    [0xAA, 0xBB, 0xCC, 0xDD] (by rfl)
  obtain ⟨i, a, hi, hp, hct, hcs, hout⟩ := h
  have hi0 : i = 0 := by
    have hi1 : i < 1 := hi
    omega
  subst hi0
  have hconcrete : parseFatArch c2Buffer 8 = Except.ok ⟨0x01000007, 9, 28, 4, 0⟩ := by rfl
  rw [show 8 + 20 * 0 = 8 by rfl, hconcrete] at hp
  injection hp with hpa
  rw [← hpa] at hcs
  exact absurd hcs (by decide)

theorem findFromIdx_ok_some (buf : List Nat) (t : Nat) :
    ∀ (fuel i : Nat) (a : FatArch), findFromIdx buf t i fuel = Except.ok (some a) →
      ∃ j, i ≤ j ∧ j < i + fuel ∧ parseFatArch buf (8 + 20 * j) = Except.ok a ∧
        a.cputype = t := by
  intro fuel
  induction fuel with
  | zero => intro i a h; cases h
  | succ k ih =>
    intro i a h
    unfold findFromIdx at h
    cases hp : parseFatArch buf (8 + 20 * i) with
    | error e => rw [hp] at h; cases h
    | ok b =>
      rw [hp] at h
      dsimp only at h
      by_cases hb : b.cputype = t
      · rw [if_pos hb] at h
        injection h with h'
        injection h' with h''
        subst h''
        exact ⟨i, Nat.le_refl i, by omega, hp, hb⟩
      · rw [if_neg hb] at h
        obtain ⟨j, hj1, hj2, hj3, hj4⟩ := ih (i + 1) a h
        exact ⟨j, by omega, by omega, hj3, hj4⟩

/-- Claim C2 as amended: `extract` matches descriptors on the primary type alone.  Two
names resolving to the same primary type (with any sub-types) extract identically, and
whenever `extract` returns a slice, that slice is the byte range of a table descriptor
whose primary type — but not necessarily sub-type — equals the resolved one. -/
theorem extract_primary_type_only (rd : FatReader) (name1 name2 : String) (t s1 s2 : Nat)
    (h1 : get_arch_from_flag name1 = some (t, s1))
    (h2 : get_arch_from_flag name2 = some (t, s2)) :
    rd.extract name1 = rd.extract name2 ∧
    ∀ out, rd.extract name1 = some out →
      ∃ i a, i < rd.fat.narches ∧ parseFatArch rd.fat.buffer (8 + 20 * i) = Except.ok a ∧
        a.cputype = t ∧ out = (rd.buffer.drop a.offset).take a.size := by
  constructor
  · unfold FatReader.extract
    rw [h1, h2]
  · intro out hout
    unfold FatReader.extract at hout
    rw [h1] at hout
    dsimp only at hout
    cases hfind : rd.fat.findCputype t with
    | error e => rw [hfind] at hout; cases hout
    | ok o =>
      cases o with
      | none => rw [hfind] at hout; cases hout
      | some a =>
        rw [hfind] at hout
        injection hout with hout'
        obtain ⟨j, hj1, hj2, hj3, hj4⟩ :=
          findFromIdx_ok_some rd.fat.buffer t rd.fat.narches 0 a hfind
        exact ⟨j, a, by omega, hj3, hj4, hout'.symm⟩

/-- Witness for the amended claim C2: on the concrete container `c2Buffer`, extracting
"x86_64" and extracting "x86_64h" (same primary type, different sub-types 3 and 8)
produce the same result. -/
theorem extract_primary_type_only_witness :
    (FatReader.mk c2Buffer ⟨c2Buffer, 1⟩).extract "x86_64" =
      (FatReader.mk c2Buffer ⟨c2Buffer, 1⟩).extract "x86_64h" :=
  (extract_primary_type_only ⟨c2Buffer, ⟨c2Buffer, 1⟩⟩ "x86_64" "x86_64h"
    CPU_TYPE_X86_64 3 8 (by rfl) (by rfl)).1

/-- Claim C6 counterexample: a 2-byte buffer (too short for the 4-byte magic) fails
with the propagated parse error, not with `NotFatContainer`; and a buffer that is
exactly a fat header with count 2 but a completely missing descriptor table is
accepted (goblin parses the table lazily), not rejected. -/
theorem reader_new_error_kinds_cex :
    fatReaderNew [0xCA, 0xFE] = Except.error Error.Goblin ∧
    Error.Goblin ≠ Error.NotFatBinary ∧
    fatReaderNew c6HdrOnly = Except.ok ⟨c6HdrOnly, ⟨c6HdrOnly, 2⟩⟩ :=
  ⟨rfl, by decide, rfl⟩

/-- Claim C6 as amended: reader construction succeeds exactly on buffers of at least
8 bytes whose leading big-endian word is one of the two fat magics; a readable wrong
magic fails with `NotFatBinary`; a buffer shorter than 4 bytes fails with the
propagated parse error instead; a buffer of 4 to 7 bytes fails with `NotFatBinary`;
and the descriptor table beyond the 8-byte header is not validated at construction. -/
theorem reader_new_amended (buf : List Nat) :
    ((∃ rd, fatReaderNew buf = Except.ok rd) ↔
      (8 ≤ buf.length ∧ (be32At buf 0 = FAT_MAGIC ∨ be32At buf 0 = FAT_MAGIC_64))) ∧
    (4 ≤ buf.length → be32At buf 0 ≠ FAT_MAGIC → be32At buf 0 ≠ FAT_MAGIC_64 →
      fatReaderNew buf = Except.error Error.NotFatBinary) ∧
    (buf.length < 4 → fatReaderNew buf = Except.error Error.Goblin) ∧
    (4 ≤ buf.length → buf.length < 8 →
      fatReaderNew buf = Except.error Error.NotFatBinary) := by
  unfold fatReaderNew parseMagicAndCtx multiArchNew
  by_cases h4 : 4 ≤ buf.length
  · rw [if_pos h4]
    dsimp only
    by_cases hm : be32At buf 0 ≠ FAT_MAGIC ∧ be32At buf 0 ≠ FAT_MAGIC_64
    · rw [if_pos hm]
      refine ⟨?_, fun _ h1 h2 => rfl, fun h => absurd h4 (by omega), fun _ _ => rfl⟩
      constructor
      · intro ⟨rd, hrd⟩; cases hrd
      · intro ⟨_, hmm⟩
        rcases hmm with h | h
        · exact absurd h hm.1
        · exact absurd h hm.2
    · rw [if_neg hm]
      by_cases h8 : 8 ≤ buf.length
      · rw [if_pos h8]
        refine ⟨?_, ?_, fun h => absurd h4 (by omega), fun _ h => absurd h8 (by omega)⟩
        · constructor
          · intro _
            refine ⟨h8, ?_⟩
            by_cases hc : be32At buf 0 = FAT_MAGIC
            · exact Or.inl hc
            · refine Or.inr ?_
              by_cases hd : be32At buf 0 = FAT_MAGIC_64
              · exact hd
              · exact absurd ⟨hc, hd⟩ hm
          · intro _; exact ⟨⟨buf, buf, be32At buf 4⟩, rfl⟩
        · intro _ h1 h2; exact absurd ⟨h1, h2⟩ hm
      · rw [if_neg h8]
        refine ⟨?_, ?_, fun h => absurd h4 (by omega), fun _ _ => rfl⟩
        · constructor
          · intro ⟨rd, hrd⟩; cases hrd
          · intro ⟨hl, _⟩; exact absurd hl h8
        · intro _ h1 h2; exact absurd ⟨h1, h2⟩ hm
  · rw [if_neg h4]
    refine ⟨?_, fun h => absurd h h4, fun _ => rfl, fun h => absurd h h4⟩
    constructor
    · intro ⟨rd, hrd⟩; cases hrd
    · intro ⟨hl, _⟩; exact absurd (by omega : 4 ≤ buf.length) h4

/-- Witness for the amended claim C6 at the 1-byte buffer: the propagated parse
error. -/
theorem reader_new_amended_witness :
    fatReaderNew [0xCA] = Except.error Error.Goblin :=
  (reader_new_amended [0xCA]).2.2.1 (by decide)

theorem isFat64_eq_true_iff (l : List ThinArch) (align : Nat) (ha : 0 < align) :
    isFat64 l align = true ↔
      (2 ^ 32 ≤ totalOffset align align l ∨ ∃ a ∈ l, 2 ^ 32 ≤ a.data.length) := by
  unfold isFat64
  rw [Bool.or_eq_true, decide_eq_true_iff]
  constructor
  · rintro (h | h)
    · exact Or.inl h
    · cases hl : l.getLast? with
      | none => rw [hl] at h; cases h
      | some a =>
        rw [hl] at h
        exact Or.inr ⟨a, List.mem_of_mem_getLast? hl, by simpa using h⟩
  · rintro (h | ⟨a, hmem, hlen⟩)
    · exact Or.inl h
    · exact Or.inl (le_trans hlen (len_le_totalOffset align ha l align a hmem))

theorem writeToBytes_of_pos (w : FatWriter) (hne : w.arches ≠ []) (hpos : 0 < w.maxAlign) :
    w.writeToBytes = some (headerBytes w.arches w.maxAlign ++
      payloadBytesAux (4 * (hdrWords w.arches w.maxAlign).length)
        (w.arches.zip (archOffsets w.arches w.maxAlign))) := by
  unfold FatWriter.writeToBytes
  rw [if_neg hne, if_neg (by omega : ¬ w.maxAlign = 0)]

theorem headerBytes_take_four (l : List ThinArch) (align : Nat) (rest : List Nat) :
    (headerBytes l align ++ rest).take 4 =
      be32 (if isFat64 l align then FAT_MAGIC_64 else FAT_MAGIC) := by
  unfold headerBytes hdrWords
  rw [List.map_cons, List.flatten_cons, List.append_assoc]
  rw [show (4 : Nat) = (be32 (if isFat64 l align then FAT_MAGIC_64 else FAT_MAGIC)).length
    from rfl]
  exact List.take_left _ _

/-- Claim C1: for a non-empty builder (whose offset computation completes, i.e. whose
running maximum alignment is positive), the emitted magic is the 64-bit one exactly
when the final computed offset reaches `2^32` or some entry's length reaches `2^32`,
and is the 32-bit one otherwise.  The code tests only the *last* entry's length
(src/write.rs:154), but any entry of length `≥ 2^32` forces the final offset to
`≥ 2^32` as well, so the two conditions coincide. -/
theorem writeTo_header_width (w : FatWriter) (hne : w.arches ≠ []) (hpos : 0 < w.maxAlign) :
    ∃ bytes, w.writeToBytes = some bytes ∧
      (bytes.take 4 = be32 FAT_MAGIC_64 ∨ bytes.take 4 = be32 FAT_MAGIC) ∧
      (bytes.take 4 = be32 FAT_MAGIC_64 ↔
        (2 ^ 32 ≤ totalOffset w.maxAlign w.maxAlign w.arches ∨
          ∃ a ∈ w.arches, 2 ^ 32 ≤ a.data.length)) := by
  refine ⟨_, writeToBytes_of_pos w hne hpos, ?_⟩
  rw [headerBytes_take_four]
  cases hf : isFat64 w.arches w.maxAlign with
  | true =>
    rw [if_pos rfl]
    refine ⟨Or.inl rfl, iff_of_true rfl ?_⟩
    exact (isFat64_eq_true_iff w.arches w.maxAlign hpos).mp hf
  | false =>
    rw [if_neg (by simp)]
    refine ⟨Or.inr rfl, iff_of_false (by decide) ?_⟩
    intro hc
    rw [(isFat64_eq_true_iff w.arches w.maxAlign hpos).mpr hc] at hf
    cases hf

/-- Witness for claim C1 at the concrete one-entry builder `w1` (the 32-bit branch). -/
theorem writeTo_header_width_witness :
    ∃ bytes, w1.writeToBytes = some bytes ∧
      (bytes.take 4 = be32 FAT_MAGIC_64 ∨ bytes.take 4 = be32 FAT_MAGIC) ∧
      (bytes.take 4 = be32 FAT_MAGIC_64 ↔
        (2 ^ 32 ≤ totalOffset w1.maxAlign w1.maxAlign w1.arches ∨
          ∃ a ∈ w1.arches, 2 ^ 32 ≤ a.data.length)) :=
  writeTo_header_width w1 (by decide) (by decide)

theorem length_archOffsetsAux (a : Nat) :
    ∀ (l : List ThinArch) (t : Nat), (archOffsetsAux a t l).length = l.length := by
  intro l
  induction l with
  | nil => intro t; rfl
  | cons x xs ih => intro t; simp [archOffsetsAux, ih]

theorem archOffsetsAux_head (a : Nat) (x : ThinArch) (xs : List ThinArch) (t : Nat) :
    (archOffsetsAux a t (x :: xs)).get? 0 = some t := by
  rfl

theorem archOffsetsAux_succ (a : Nat) :
    ∀ (l : List ThinArch) (t i : Nat), i + 1 < l.length →
      ∃ oi oi1 xi, (archOffsetsAux a t l).get? i = some oi ∧
        (archOffsetsAux a t l).get? (i + 1) = some oi1 ∧ l.get? i = some xi ∧
        oi1 = roundUp (oi + xi.data.length) a := by
  intro l
  induction l with
  | nil => intro t i hi; simp at hi
  | cons x xs ih =>
    intro t i hi
    cases i with
    | zero =>
      cases xs with
      | nil => simp at hi
      | cons y ys =>
        exact ⟨t, roundUp (t + x.data.length) a, x, rfl, rfl, rfl, rfl⟩
    | succ j =>
      have hj : j + 1 < xs.length := by simpa using hi
      obtain ⟨oi, oi1, xi, h1, h2, h3, h4⟩ := ih (roundUp (t + x.data.length) a) j hj
      exact ⟨oi, oi1, xi, h1, h2, h3, h4⟩

theorem dvd_archOffsetsAux (a : Nat) :
    ∀ (l : List ThinArch) (t : Nat), a ∣ t → ∀ off ∈ archOffsetsAux a t l, a ∣ off := by
  intro l
  induction l with
  | nil => intro t _ off hoff; cases hoff
  | cons x xs ih =>
    intro t ht off hoff
    rcases List.mem_cons.mp hoff with h | h
    · subst h; exact ht
    · exact ih _ (roundUp_dvd _ _) off h

theorem getAlign_range (t s : Nat) :
    get_align_from_cpu_types t s = 0 ∨ get_align_from_cpu_types t s = 0x1000 ∨
      get_align_from_cpu_types t s = 0x2000 ∨ get_align_from_cpu_types t s = 0x4000 := by
  unfold get_align_from_cpu_types
  cases get_arch_name_from_types t s with
  | none => exact Or.inl rfl
  | some n =>
    dsimp only
    cases get_arch_from_flag n with
    | none => exact Or.inl rfl
    | some p =>
      obtain ⟨t2, s2⟩ := p
      dsimp only
      split
      · exact Or.inr (Or.inr (Or.inr rfl))
      · split
        · exact Or.inr (Or.inl rfl)
        · split
          · exact Or.inr (Or.inr (Or.inl rfl))
          · exact Or.inl rfl

theorem maxAlign_range (w : FatWriter) (hr : Reachable w) :
    w.maxAlign = 0 ∨ w.maxAlign = 0x1000 ∨ w.maxAlign = 0x2000 ∨ w.maxAlign = 0x4000 := by
  induction hr with
  | new => exact Or.inl rfl
  | @add h bytes w _ ih =>
    cases hadd : w.addThin h bytes with
    | error e =>
      have heq : w.applyAdd h bytes = w := by unfold FatWriter.applyAdd; rw [hadd]
      rw [heq]; exact ih
    | ok w2 =>
      have heq : w.applyAdd h bytes = w2 := by unfold FatWriter.applyAdd; rw [hadd]
      rw [heq]
      unfold FatWriter.addThin at hadd
      by_cases hdup : (w.arches.find? (fun a =>
          a.header.cputype == h.cputype && a.header.cpusubtype == h.cpusubtype)).isSome = true
      · rw [if_pos hdup] at hadd; cases hadd
      · rw [if_neg hdup] at hadd
        injection hadd with hw2
        subst hw2
        dsimp only
        rcases getAlign_range h.cputype h.cpusubtype with hA | hA | hA | hA <;> rw [hA] <;>
          rcases ih with hB | hB | hB | hB <;> rw [hB] <;> split <;> omega
  | @remove name w _ ih =>
    cases hflag : get_arch_from_flag name with
    | none =>
      have heq : (w.removeArch name).1 = w := by unfold FatWriter.removeArch; rw [hflag]
      rw [heq]; exact ih
    | some p =>
      obtain ⟨t, s⟩ := p
      cases hidx : w.arches.findIdx? (fun a =>
          a.header.cputype == t && a.header.cpusubtype == s) with
      | none =>
        have heq : (w.removeArch name).1 = w := by
          unfold FatWriter.removeArch; rw [hflag]; dsimp only; rw [hidx]
        rw [heq]; exact ih
      | some i =>
        have heq : (w.removeArch name).1 = ⟨w.arches.eraseIdx i, w.maxAlign⟩ := by
          unfold FatWriter.removeArch; rw [hflag]; dsimp only; rw [hidx]
        rw [heq]; exact ih

theorem alignBits_two_pow (k : Nat) : alignBits (2 ^ k) = k := by
  unfold alignBits; exact Nat.log2_two_pow

theorem maxAlign_two_pow (w : FatWriter) (hr : Reachable w) (hpos : 0 < w.maxAlign) :
    w.maxAlign = 2 ^ alignBits w.maxAlign := by
  rcases maxAlign_range w hr with h | h | h | h
  · omega
  · rw [h, show (4096 : Nat) = 2 ^ 12 from by norm_num, alignBits_two_pow]
  · rw [h, show (8192 : Nat) = 2 ^ 13 from by norm_num, alignBits_two_pow]
  · rw [h, show (16384 : Nat) = 2 ^ 14 from by norm_num, alignBits_two_pow]

/-- Claim C4: for a non-empty builder with positive running maximum alignment,
`write_to` assigns offsets by `offset[0] = align` and
`offset[i+1] = roundUp(offset[i] + length[i], align)`, and every computed (and hence
emitted) offset is a multiple of `2 ^ align_exp`, where `align_exp` is the emitted
alignment exponent. -/
theorem writeTo_offsets_recurrence_aligned (w : FatWriter) (hr : Reachable w)
    (hne : w.arches ≠ []) (hpos : 0 < w.maxAlign) :
    (archOffsets w.arches w.maxAlign).get? 0 = some w.maxAlign ∧
    (∀ i, i + 1 < w.arches.length →
      ∃ oi oi1 xi, (archOffsets w.arches w.maxAlign).get? i = some oi ∧
        (archOffsets w.arches w.maxAlign).get? (i + 1) = some oi1 ∧
        w.arches.get? i = some xi ∧
        oi1 = roundUp (oi + xi.data.length) w.maxAlign) ∧
    (∀ off ∈ archOffsets w.arches w.maxAlign, 2 ^ alignBits w.maxAlign ∣ off) := by
  refine ⟨?_, ?_, ?_⟩
  · cases hl : w.arches with
    | nil => exact absurd hl hne
    | cons x xs => exact archOffsetsAux_head w.maxAlign x xs w.maxAlign
  · intro i hi
    exact archOffsetsAux_succ w.maxAlign w.arches w.maxAlign i hi
  · intro off hoff
    rw [← maxAlign_two_pow w hr hpos]
    exact dvd_archOffsetsAux w.maxAlign w.arches w.maxAlign (dvd_refl _) off hoff

/-- Witness for claim C4 at the concrete one-entry builder `w1`. -/
theorem writeTo_offsets_recurrence_aligned_witness :
    (archOffsets w1.arches w1.maxAlign).get? 0 = some w1.maxAlign ∧
    (∀ i, i + 1 < w1.arches.length →
      ∃ oi oi1 xi, (archOffsets w1.arches w1.maxAlign).get? i = some oi ∧
        (archOffsets w1.arches w1.maxAlign).get? (i + 1) = some oi1 ∧
        w1.arches.get? i = some xi ∧
        oi1 = roundUp (oi + xi.data.length) w1.maxAlign) ∧
    (∀ off ∈ archOffsets w1.arches w1.maxAlign, 2 ^ alignBits w1.maxAlign ∣ off) :=
  writeTo_offsets_recurrence_aligned w1
    (Reachable.add ⟨CPU_TYPE_X86_64, 3⟩ [1, 2, 3, 4] Reachable.new) (by decide) (by decide)

theorem archOffsetsAux_ge (align : Nat) (hpos : 0 < align) :
    ∀ (l : List ThinArch) (t : Nat) (i : Nat) (h : i < (archOffsetsAux align t l).length),
      t ≤ (archOffsetsAux align t l).get ⟨i, h⟩ := by
  intro l
  induction l with
  | nil => intro t i h; simp [archOffsetsAux] at h
  | cons x xs ih =>
    intro t i h
    cases i with
    | zero => exact Nat.le_refl t
    | succ j =>
      have hj : j < (archOffsetsAux align (roundUp (t + x.data.length) align) xs).length := by
        simpa [archOffsetsAux] using h
      calc t ≤ t + x.data.length := Nat.le_add_right _ _
      _ ≤ roundUp (t + x.data.length) align := le_roundUp _ _ hpos
      _ ≤ _ := ih (roundUp (t + x.data.length) align) j hj

theorem headerBytes_length (l : List ThinArch) (align : Nat) :
    (headerBytes l align).length = 4 * (hdrWords l align).length := by
  unfold headerBytes
  generalize hdrWords l align = ws
  induction ws with
  | nil => rfl
  | cons w ws ih =>
    rw [List.map_cons, List.flatten_cons, List.length_append, ih]
    have hb : (be32 w).length = 4 := rfl
    simp [List.length_cons]
    omega

theorem payloadBytesAux_placement (align : Nat) (hpos : 0 < align) :
    ∀ (l : List ThinArch) (t cursor : Nat), cursor ≤ t →
      ∀ (i : Nat) (hi : i < l.length) (ho : i < (archOffsetsAux align t l).length),
        ((payloadBytesAux cursor (l.zip (archOffsetsAux align t l))).drop
            ((archOffsetsAux align t l).get ⟨i, ho⟩ - cursor)).take
          (l.get ⟨i, hi⟩).data.length = (l.get ⟨i, hi⟩).data := by
  intro l
  induction l with
  | nil => intro t cursor _ i hi; simp at hi
  | cons x xs ih =>
    intro t cursor hc i hi ho
    have hpad : (if cursor < t then List.replicate (t - cursor) 0 else []) =
        List.replicate (t - cursor) 0 := by
      rcases Nat.lt_or_ge cursor t with h | h
      · rw [if_pos h]
      · have : t - cursor = 0 := by omega
        rw [if_neg (by omega), this]
        rfl
    have hcur : (if cursor < t then t else cursor) = t := by
      rcases Nat.lt_or_ge cursor t with h | h
      · rw [if_pos h]
      · have : cursor = t := by omega
        rw [if_neg (by omega), this]
    show ((payloadBytesAux cursor ((x, t) ::
        xs.zip (archOffsetsAux align (roundUp (t + x.data.length) align) xs))).drop _).take _ = _
    unfold payloadBytesAux
    rw [hpad, hcur]
    cases i with
    | zero =>
      show ((List.replicate (t - cursor) 0 ++ x.data ++ _).drop (t - cursor)).take
          x.data.length = x.data
      rw [List.append_assoc, List.drop_left' (List.length_replicate _ _),
        List.take_left' rfl]
    | succ j =>
      have hj : j < xs.length := by simpa using hi
      have hoj : j < (archOffsetsAux align (roundUp (t + x.data.length) align) xs).length := by
        have := ho
        simp [archOffsetsAux] at this
        simpa [length_archOffsetsAux] using this
      have hget : (archOffsetsAux align t (x :: xs)).get ⟨j + 1, ho⟩ =
          (archOffsetsAux align (roundUp (t + x.data.length) align) xs).get ⟨j, hoj⟩ := rfl
      have hgetx : ((x :: xs).get ⟨j + 1, hi⟩) = xs.get ⟨j, hj⟩ := rfl
      rw [hget, hgetx]
      set t2 := roundUp (t + x.data.length) align with ht2
      set oj := (archOffsetsAux align t2 xs).get ⟨j, hoj⟩ with hoj2
      have hojge : t2 ≤ oj := archOffsetsAux_ge align hpos xs t2 j hoj
      have ht2ge : t + x.data.length ≤ t2 := le_roundUp _ _ hpos
      have hle1 : (List.replicate (t - cursor) (0 : Nat) ++ x.data).length ≤ oj - cursor := by
        simp [List.length_append, List.length_replicate]
        omega
      have hsplit : (List.replicate (t - cursor) (0 : Nat) ++ x.data ++
          payloadBytesAux (t + x.data.length)
            (xs.zip (archOffsetsAux align t2 xs))).drop (oj - cursor) =
          (payloadBytesAux (t + x.data.length) (xs.zip (archOffsetsAux align t2 xs))).drop
            (oj - (t + x.data.length)) := by
        rw [List.append_assoc, ← List.append_assoc,
          List.drop_append_eq_append_drop,
          List.drop_eq_nil_of_le (le_trans (Nat.le_refl _) hle1)]
        have harith : oj - cursor -
            (List.replicate (t - cursor) (0 : Nat) ++ x.data).length =
            oj - (t + x.data.length) := by
          simp [List.length_append, List.length_replicate]
          omega
        rw [harith]
        rfl
      rw [hsplit]
      exact ih t2 (t + x.data.length) ht2ge j hj hoj

/-- Claim C9 as amended: whenever the header table ends at or before the first entry's
computed offset (`4 * hdr.len() <= align`), every payload begins in the output stream
exactly at the offset computed — and declared in the header table — for it. -/
theorem payloads_at_offsets_amended (w : FatWriter)
    (hfit : 4 * (hdrWords w.arches w.maxAlign).length ≤ w.maxAlign) :
    PayloadsAtOffsets w := by
  intro bytes hbytes i hi ho
  have hne : w.arches ≠ [] := List.length_pos.mp (by omega)
  have hpos : 0 < w.maxAlign := by
    have hlen : 2 ≤ (hdrWords w.arches w.maxAlign).length := by
      unfold hdrWords
      simp [List.length_cons]
    omega
  have hb2 := writeToBytes_of_pos w hne hpos
  rw [hbytes] at hb2
  injection hb2 with hb3
  subst hb3
  set off := (archOffsets w.arches w.maxAlign).get ⟨i, ho⟩ with hoff
  have hoffge : w.maxAlign ≤ off := archOffsetsAux_ge w.maxAlign hpos w.arches w.maxAlign i ho
  have hdropsplit : (headerBytes w.arches w.maxAlign ++
      payloadBytesAux (4 * (hdrWords w.arches w.maxAlign).length)
        (w.arches.zip (archOffsets w.arches w.maxAlign))).drop off =
      (payloadBytesAux (4 * (hdrWords w.arches w.maxAlign).length)
        (w.arches.zip (archOffsets w.arches w.maxAlign))).drop
        (off - 4 * (hdrWords w.arches w.maxAlign).length) := by
    rw [List.drop_append_eq_append_drop,
      List.drop_eq_nil_of_le (by rw [headerBytes_length]; omega),
      headerBytes_length]
    rfl
  rw [hdropsplit]
  have := payloadBytesAux_placement w.maxAlign hpos w.arches w.maxAlign
    (4 * (hdrWords w.arches w.maxAlign).length) (by omega) i hi ho
  exact this

/-- Witness for the amended claim C9 at the concrete one-entry builder `w1`
(header of 28 bytes, first offset 4096). -/
theorem payloads_at_offsets_amended_witness : PayloadsAtOffsets w1 :=
  payloads_at_offsets_amended w1 (by decide)

/-- Claim C9 counterexample: in the builder `c9State` (205 entries, running maximum
alignment `0x1000`), the header table is 4108 bytes long while the first computed and
declared offset is 4096, so the first payload does not begin at its declared offset —
the code emits no padding when the cursor is already past the offset and simply writes
the payload late. -/
theorem payloads_at_offsets_cex : ¬ PayloadsAtOffsets c9State := by
  intro h
  have hb := writeToBytes_of_pos c9State (by decide) (by decide)
  have h0 := h _ hb 0 (by decide) (by decide)
  revert h0
  decide

theorem orderedInsert_insertLast_comm {α : Type} (r : α → α → Prop) [DecidableRel r]
    [IsTotal α r] [IsTrans α r] (a y : α) :
    ∀ m : List α, List.orderedInsert r a (insertLast r y m) =
      insertLast r y (List.orderedInsert r a m) := by
  intro m
  induction m with
  | nil =>
    show List.orderedInsert r a [y] = insertLast r y [a]
    simp only [List.orderedInsert, insertLast]
    by_cases hay : r a y
    · rw [if_pos hay, if_neg (by tauto)]
    · have hya : r y a := (total_of r a y).resolve_left hay
      rw [if_neg hay, if_pos ⟨hya, hay⟩]
  | cons e es ih =>
    simp only [insertLast, List.orderedInsert]
    by_cases hye : r y e ∧ ¬ r e y
    · rw [if_pos hye]
      by_cases hay : r a y
      · have hae : r a e := IsTrans.trans a y e hay hye.1
        simp only [List.orderedInsert]
        rw [if_pos hay, if_pos hae]
        simp only [insertLast]
        rw [if_neg (by tauto), if_pos hye]
      · have hya : r y a := (total_of r a y).resolve_left hay
        simp only [List.orderedInsert]
        rw [if_neg hay]
        by_cases hae : r a e
        · rw [if_pos hae]
          simp only [insertLast]
          rw [if_pos ⟨hya, hay⟩]
        · rw [if_neg hae]
          simp only [insertLast]
          rw [if_pos hye]
    · rw [if_neg hye]
      by_cases hae : r a e
      · simp only [List.orderedInsert]
        rw [if_pos hae, if_pos hae]
        simp only [insertLast]
        have hnya : ¬ (r y a ∧ ¬ r a y) := by
          rintro ⟨hya, hay⟩
          have hyee : r y e := IsTrans.trans y a e hya hae
          have hey : r e y := by tauto
          exact hay (IsTrans.trans a e y hae hey)
        rw [if_neg hnya, if_neg hye]
      · simp only [List.orderedInsert]
        rw [if_neg hae, if_neg hae]
        simp only [insertLast]
        rw [if_neg hye, ih]

theorem insertionSort_append_singleton {α : Type} (r : α → α → Prop) [DecidableRel r]
    [IsTotal α r] [IsTrans α r] (y : α) :
    ∀ l : List α, List.insertionSort r (l ++ [y]) = insertLast r y (List.insertionSort r l) := by
  intro l
  induction l with
  | nil => rfl
  | cons a l ih =>
    show List.orderedInsert r a (List.insertionSort r (l ++ [y])) = _
    rw [ih, orderedInsert_insertLast_comm]
    rfl

theorem foldl_insertionSort_append {α : Type} (r : α → α → Prop) [DecidableRel r]
    [IsTotal α r] [IsTrans α r] :
    ∀ (xs acc : List α),
      xs.foldl (fun l x => List.insertionSort r (l ++ [x])) (List.insertionSort r acc) =
        List.insertionSort r (acc ++ xs) := by
  intro xs
  induction xs with
  | nil => intro acc; rw [List.append_nil]; rfl
  | cons x xs2 ih =>
    intro acc
    have hstep : List.insertionSort r (List.insertionSort r acc ++ [x]) =
        List.insertionSort r (acc ++ [x]) := by
      rw [insertionSort_append_singleton, insertionSort_append_singleton,
        (List.sorted_insertionSort r acc).insertionSort_eq]
    show List.foldl _ (List.insertionSort r (List.insertionSort r acc ++ [x])) xs2 = _
    rw [hstep, ih (acc ++ [x]), List.append_assoc]
    rfl

theorem orderedInsert_congr {α : Type} (r r2 : α → α → Prop) [DecidableRel r]
    [DecidableRel r2] (a : α) :
    ∀ m : List α, (∀ y ∈ m, (r a y ↔ r2 a y)) →
      List.orderedInsert r a m = List.orderedInsert r2 a m := by
  intro m
  induction m with
  | nil => intro _; rfl
  | cons b bs ih =>
    intro hyp
    simp only [List.orderedInsert]
    by_cases h : r a b
    · rw [if_pos h, if_pos ((hyp b (List.mem_cons_self b bs)).mp h)]
    · rw [if_neg h, if_neg (fun h2 => h ((hyp b (List.mem_cons_self b bs)).mpr h2)),
        ih (fun y hy => hyp y (List.mem_cons_of_mem b hy))]

theorem insertionSort_congr {α : Type} (r r2 : α → α → Prop) [DecidableRel r]
    [DecidableRel r2] :
    ∀ l : List α, (∀ x ∈ l, ∀ y ∈ l, (r x y ↔ r2 x y)) →
      List.insertionSort r l = List.insertionSort r2 l := by
  intro l
  induction l with
  | nil => intro _; rfl
  | cons a l ih =>
    intro hyp
    show List.orderedInsert r a (List.insertionSort r l) = _
    rw [ih (fun x hx y hy =>
      hyp x (List.mem_cons_of_mem a hx) y (List.mem_cons_of_mem a hy))]
    exact orderedInsert_congr r r2 a (List.insertionSort r2 l) (fun y hy =>
      hyp a (List.mem_cons_self a l) y
        (List.mem_cons_of_mem a ((List.mem_insertionSort r2).mp hy)))

instance : IsTotal ThinArch archKeyLe := by
  constructor
  intro a b
  unfold archKeyLe
  omega

instance : IsTrans ThinArch archKeyLe := by
  constructor
  intro a b c hab hbc
  unfold archKeyLe at hab hbc ⊢
  omega

theorem archLe_self (x : ThinArch) : archLe x x := by
  unfold archLe cmpArches
  rw [if_pos rfl]
  intro hc
  exact absurd (Nat.compare_eq_gt.mp hc) (lt_irrefl _)

theorem archKeyLe_self (x : ThinArch) : archKeyLe x x := by
  unfold archKeyLe
  omega

theorem archLe_iff_keyLe_of_ne (x y : ThinArch)
    (h : x.header.cputype ≠ y.header.cputype) : archLe x y ↔ archKeyLe x y := by
  unfold archLe cmpArches archKeyLe archKey
  rw [if_neg h]
  by_cases hx : x.header.cputype = CPU_TYPE_ARM64
  · have hy : y.header.cputype ≠ CPU_TYPE_ARM64 := by rw [hx] at h; exact fun h2 => h h2.symm
    rw [if_pos hx]
    simp only [if_pos hx, if_neg hy]
    constructor
    · intro hc; exact absurd rfl hc
    · intro hc; omega
  · rw [if_neg hx]
    by_cases hy : y.header.cputype = CPU_TYPE_ARM64
    · rw [if_pos hy]
      simp only [if_neg hx, if_pos hy]
      constructor
      · intro _; omega
      · intro _ hc; cases hc
    · rw [if_neg hy]
      simp only [if_neg hx, if_neg hy]
      constructor
      · intro hc
        have hle : ¬ y.align < x.align := fun hlt => hc (Nat.compare_eq_gt.mpr hlt)
        simp only [true_and]
        omega
      · intro hc hgt
        have := Nat.compare_eq_gt.mp hgt
        simp only [true_and] at hc
        omega

theorem archLe_iff_keyLe_on (l : List ThinArch)
    (h : (l.map (fun a => a.header.cputype)).Pairwise (fun x y => x ≠ y)) :
    ∀ x ∈ l, ∀ y ∈ l, (archLe x y ↔ archKeyLe x y) := by
  intro x hx y hy
  by_cases hxy : x = y
  · subst hxy
    exact iff_of_true (archLe_self x) (archKeyLe_self x)
  · have hnodup : (l.map (fun a => a.header.cputype)).Nodup := h
    have hne : x.header.cputype ≠ y.header.cputype := by
      intro heq
      exact hxy (List.inj_on_of_nodup_map hnodup hx hy heq)
    exact archLe_iff_keyLe_of_ne x y hne

theorem addAll_arches_of_distinct :
    ∀ (imgs : List (Header × List Nat)) (w : FatWriter),
      ((w.arches.map (fun a => a.header.cputype)) ++
        imgs.map (fun p => p.1.cputype)).Pairwise (fun x y => x ≠ y) →
      (addAll w imgs).arches =
        imgs.foldl (fun l p => sortArches (l ++ [mkThin p.1 p.2])) w.arches := by
  intro imgs
  induction imgs with
  | nil => intro w _; rfl
  | cons p ps ih =>
    intro w hp
    have hnodup : ∀ a ∈ w.arches, a.header.cputype ≠ p.1.cputype := by
      rw [List.pairwise_append] at hp
      intro a ha
      exact hp.2.2 _ (List.mem_map_of_mem _ ha) _ (by simp)
    have hfind : ¬ (w.arches.find? (fun a =>
        a.header.cputype == p.1.cputype &&
          a.header.cpusubtype == p.1.cpusubtype)).isSome = true := by
      intro hsome
      obtain ⟨a, ha, hpred⟩ := List.find?_isSome.mp hsome
      simp only [Bool.and_eq_true, beq_iff_eq] at hpred
      exact hnodup a ha hpred.1
    have haddok : w.addThin p.1 p.2 = Except.ok
        ⟨sortArches (w.arches ++ [mkThin p.1 p.2]),
         if w.maxAlign < get_align_from_cpu_types p.1.cputype p.1.cpusubtype
         then get_align_from_cpu_types p.1.cputype p.1.cpusubtype else w.maxAlign⟩ := by
      unfold FatWriter.addThin
      rw [if_neg hfind]
      rfl
    have happly : w.applyAdd p.1 p.2 = (⟨sortArches (w.arches ++ [mkThin p.1 p.2]),
        if w.maxAlign < get_align_from_cpu_types p.1.cputype p.1.cpusubtype
        then get_align_from_cpu_types p.1.cputype p.1.cpusubtype
        else w.maxAlign⟩ : FatWriter) := by
      unfold FatWriter.applyAdd
      rw [haddok]
    show (addAll (w.applyAdd p.1 p.2) ps).arches = _
    rw [happly]
    have hmapperm : ((sortArches (w.arches ++ [mkThin p.1 p.2])).map
        (fun a => a.header.cputype)).Perm
        (w.arches.map (fun a => a.header.cputype) ++ [p.1.cputype]) := by
      have h1 := (List.perm_insertionSort archLe
        (w.arches ++ [mkThin p.1 p.2])).map (fun a => a.header.cputype)
      rw [List.map_append] at h1
      exact h1
    have hp2 : (((sortArches (w.arches ++ [mkThin p.1 p.2])).map
        (fun a => a.header.cputype)) ++ ps.map (fun q => q.1.cputype)).Pairwise
        (fun x y => x ≠ y) := by
      have hperm : (((sortArches (w.arches ++ [mkThin p.1 p.2])).map
          (fun a => a.header.cputype)) ++ ps.map (fun q => q.1.cputype)).Perm
          ((w.arches.map (fun a => a.header.cputype)) ++
            (p.1.cputype :: ps.map (fun q => q.1.cputype))) := by
        have h2 := hmapperm.append_right (ps.map (fun q => q.1.cputype))
        rw [List.append_assoc] at h2
        exact h2
      exact (List.Perm.pairwise_iff (fun h => h.symm) hperm).mpr hp
    rw [ih _ hp2]
    rfl

theorem foldl_sortArches_eq :
    ∀ (xs pre : List ThinArch),
      ((pre ++ xs).map (fun a => a.header.cputype)).Pairwise (fun x y => x ≠ y) →
      xs.foldl (fun l x => sortArches (l ++ [x])) (List.insertionSort archKeyLe pre) =
        List.insertionSort archKeyLe (pre ++ xs) := by
  intro xs
  induction xs with
  | nil => intro pre _; rw [List.append_nil]; rfl
  | cons x xs2 ih =>
    intro pre hp
    have hsub : ∀ z ∈ List.insertionSort archKeyLe pre ++ [x], z ∈ pre ++ x :: xs2 := by
      intro z hz
      rcases List.mem_append.mp hz with h | h
      · exact List.mem_append.mpr (Or.inl ((List.mem_insertionSort archKeyLe).mp h))
      · rcases List.mem_singleton.mp h with rfl
        exact List.mem_append.mpr (Or.inr (List.mem_cons_self _ _))
    have hagree0 := archLe_iff_keyLe_on (pre ++ x :: xs2) hp
    have hstep : sortArches (List.insertionSort archKeyLe pre ++ [x]) =
        List.insertionSort archKeyLe (pre ++ [x]) := by
      unfold sortArches
      rw [insertionSort_congr archLe archKeyLe _
        (fun a ha b hb => hagree0 a (hsub a ha) b (hsub b hb))]
      rw [insertionSort_append_singleton, insertionSort_append_singleton,
        (List.sorted_insertionSort archKeyLe pre).insertionSort_eq]
    show List.foldl _ (sortArches (List.insertionSort archKeyLe pre ++ [x])) xs2 = _
    rw [hstep, ih (pre ++ [x]) (by simpa [List.append_assoc] using hp), List.append_assoc]
    rfl

/-- Claim C7 as amended: when the added images have pairwise distinct primary types
(so the comparator restricted to the builder is a total preorder), the entry list
after any sequence of adds is sorted by the comparator, and equals sorting the full
set once. -/
theorem add_sorted_amended (imgs : List (Header × List Nat))
    (hdist : (imgs.map (fun p => p.1.cputype)).Pairwise (fun x y => x ≠ y)) :
    (addAll FatWriter.new imgs).arches.Pairwise
      (fun x y => cmpArches x y ≠ Ordering.gt) ∧
    (addAll FatWriter.new imgs).arches =
      sortArches (imgs.map (fun p => mkThin p.1 p.2)) := by
  have hmap : (imgs.map (fun p => mkThin p.1 p.2)).map (fun a => a.header.cputype) =
      imgs.map (fun p => p.1.cputype) := by
    rw [List.map_map]
    rfl
  have hdist2 : ((imgs.map (fun p => mkThin p.1 p.2)).map
      (fun a => a.header.cputype)).Pairwise (fun x y => x ≠ y) := by
    rw [hmap]; exact hdist
  have h1 : (addAll FatWriter.new imgs).arches =
      imgs.foldl (fun l p => sortArches (l ++ [mkThin p.1 p.2])) [] :=
    addAll_arches_of_distinct imgs FatWriter.new (by simpa using hdist)
  have h2 : imgs.foldl (fun l p => sortArches (l ++ [mkThin p.1 p.2])) ([] : List ThinArch) =
      (imgs.map (fun p => mkThin p.1 p.2)).foldl (fun l x => sortArches (l ++ [x])) [] := by
    rw [List.foldl_map]
  have h3 : (imgs.map (fun p => mkThin p.1 p.2)).foldl
      (fun l x => sortArches (l ++ [x])) [] =
      List.insertionSort archKeyLe (imgs.map (fun p => mkThin p.1 p.2)) := by
    have := foldl_sortArches_eq (imgs.map (fun p => mkThin p.1 p.2)) []
      (by simpa using hdist2)
    simpa using this
  have h4 : List.insertionSort archKeyLe (imgs.map (fun p => mkThin p.1 p.2)) =
      sortArches (imgs.map (fun p => mkThin p.1 p.2)) := by
    unfold sortArches
    exact (insertionSort_congr archLe archKeyLe _
      (archLe_iff_keyLe_on _ hdist2)).symm
  constructor
  · rw [h1, h2, h3]
    have hsorted := List.sorted_insertionSort archKeyLe (imgs.map (fun p => mkThin p.1 p.2))
    refine List.Pairwise.imp_of_mem ?_ hsorted
    intro a b ha hb hk
    have ha2 := (List.mem_insertionSort archKeyLe).mp ha
    have hb2 := (List.mem_insertionSort archKeyLe).mp hb
    exact (archLe_iff_keyLe_on _ hdist2 a ha2 b hb2).mpr hk
  · rw [h1, h2, h3, h4]

/-- Witness for the amended claim C7: an x86-64 image and an ARM64 image (distinct
primary types) added in sequence yield a sorted list equal to the one-shot sort. -/
theorem add_sorted_amended_witness :
    (addAll FatWriter.new [(⟨CPU_TYPE_X86_64, 3⟩, [1, 2, 3, 4]),
      (⟨CPU_TYPE_ARM64, 0⟩, [5, 6, 7])]).arches.Pairwise
      (fun x y => cmpArches x y ≠ Ordering.gt) ∧
    (addAll FatWriter.new [(⟨CPU_TYPE_X86_64, 3⟩, [1, 2, 3, 4]),
      (⟨CPU_TYPE_ARM64, 0⟩, [5, 6, 7])]).arches =
      sortArches ([(⟨CPU_TYPE_X86_64, 3⟩, [1, 2, 3, 4]),
        (⟨CPU_TYPE_ARM64, 0⟩, [5, 6, 7])].map (fun p => mkThin p.1 p.2)) :=
  add_sorted_amended _ (by decide)

/-- Claim C7 counterexample: three successful adds — primary types `0x50`, `0x60`,
`0x50` with sub-types 8, 1, 3 and required alignment 0 each — leave the builder with
the entries in insertion order, where the two `0x50` entries stand in descending
sub-type order with an equivalent `0x60` entry between them: the resulting list is
not sorted by the comparator (the comparator is not transitive across the
alignment-equal middle entry). -/
theorem add_sorted_cex :
    FatWriter.new.addThin ⟨0x50, 8⟩ [1] = Except.ok c7w1 ∧
    c7w1.addThin ⟨0x60, 1⟩ [2] = Except.ok c7w2 ∧
    c7w2.addThin ⟨0x50, 3⟩ [3] = Except.ok c7w3 ∧
    ¬ c7w3.arches.Pairwise (fun x y => cmpArches x y ≠ Ordering.gt) :=
  ⟨rfl, rfl, rfl, by decide⟩
